import Mathlib

/-!
Verification of the analytical core of a stock-analysis dashboard
(src/app.py): series sanitization, rolling indicators (SMA, RSI, Bollinger
bands), pivot (support/resistance) detection, and the buy-strength scorer.

Numeric modelling: pandas columns are embedded as lists of FVal, where exact
rationals stand for finite float values and nan / signed infinities carry the
IEEE behaviour the pipeline relies on (comparisons with nan are false,
positive/0 yields +inf, 0/0 yields nan). Rounding of finite arithmetic is
idealised as exact rational arithmetic.
-/

/-- Float-like numeric value: not-a-number, the two infinities, or a finite
value represented as an exact rational. -/
inductive FVal where
  | nan : FVal
  | pinf : FVal
  | ninf : FVal
  | val : ℚ → FVal
deriving DecidableEq

/-- Addition with IEEE-style propagation of nan and infinities. -/
def fadd : FVal → FVal → FVal
  | .nan, _ => .nan
  | _, .nan => .nan
  | .pinf, .ninf => .nan
  | .ninf, .pinf => .nan
  | .pinf, _ => .pinf
  | _, .pinf => .pinf
  | .ninf, _ => .ninf
  | _, .ninf => .ninf
  | .val a, .val b => .val (a + b)

/-- Negation. -/
def fneg : FVal → FVal
  | .nan => .nan
  | .pinf => .ninf
  | .ninf => .pinf
  | .val a => .val (-a)

/-- Subtraction, as addition of the negation. -/
def fsub (a b : FVal) : FVal := fadd a (fneg b)

/-- Multiplication with IEEE-style propagation (infinity times zero is nan). -/
def fmul : FVal → FVal → FVal
  | .nan, _ => .nan
  | _, .nan => .nan
  | .pinf, .pinf => .pinf
  | .pinf, .ninf => .ninf
  | .ninf, .pinf => .ninf
  | .ninf, .ninf => .pinf
  | .pinf, .val b => if 0 < b then .pinf else if b < 0 then .ninf else .nan
  | .val a, .pinf => if 0 < a then .pinf else if a < 0 then .ninf else .nan
  | .ninf, .val b => if 0 < b then .ninf else if b < 0 then .pinf else .nan
  | .val a, .ninf => if 0 < a then .ninf else if a < 0 then .pinf else .nan
  | .val a, .val b => .val (a * b)

/-- Division with IEEE-style behaviour: a finite positive value divided by
zero is +inf, a finite negative one is -inf, zero by zero is nan, a finite
value by an infinity is zero (the rationals carry no signed zero). -/
def fdiv : FVal → FVal → FVal
  | .nan, _ => .nan
  | _, .nan => .nan
  | .pinf, .pinf => .nan
  | .pinf, .ninf => .nan
  | .ninf, .pinf => .nan
  | .ninf, .ninf => .nan
  | .pinf, .val b => if b < 0 then .ninf else .pinf
  | .ninf, .val b => if b < 0 then .pinf else .ninf
  | .val _, .pinf => .val 0
  | .val _, .ninf => .val 0
  | .val a, .val b =>
    if b = 0 then (if 0 < a then .pinf else if a < 0 then .ninf else .nan)
    else .val (a / b)

/-- Strict less-than; every comparison involving nan is false. -/
def flt : FVal → FVal → Bool
  | .nan, _ => false
  | _, .nan => false
  | .pinf, _ => false
  | _, .ninf => false
  | .ninf, _ => true
  | _, .pinf => true
  | .val a, .val b => decide (a < b)

/-- Strict greater-than, written as the flipped less-than. -/
def fgt (a b : FVal) : Bool := flt b a

/-- Test for a finite value. -/
def isVal : FVal → Bool
  | .val _ => true
  | _ => false

/-- Finite value extraction (zero on non-finite entries, never consulted
there by the definitions below). -/
def toQ : FVal → ℚ
  | .val q => q
  | _ => 0

/-- Column of length n built from an index function, mirroring a pandas
column aligned with positions 0..n-1. -/
def tabulate (n : ℕ) (f : ℕ → FVal) : List FVal := (List.range n).map f

/-- Day-over-day close difference (app.py line 73): nan at position 0, else
close at i minus close at i-1. -/
def diffCol (xs : List ℚ) : List FVal :=
  tabulate xs.length fun i => if i = 0 then .nan else .val (xs.getD i 0 - xs.getD (i - 1) 0)

/-- Gains (app.py line 74): the difference where it is positive, else 0; the
nan leading difference compares false and becomes 0. -/
def gainCol (xs : List ℚ) : List FVal :=
  (diffCol xs).map fun d => if fgt d (.val 0) then d else .val 0

/-- Losses (app.py line 75): negation of the difference where it is
negative, else 0. -/
def lossCol (xs : List ℚ) : List FVal :=
  (diffCol xs).map fun d => fneg (if flt d (.val 0) then d else .val 0)

/-- Rolling mean over the trailing window of w entries (pandas
rolling(w).mean()): nan while fewer than w periods exist or when the window
holds a non-finite entry; in this pipeline window entries are always finite
or nan. -/
def rollingMean (w : ℕ) (ys : List FVal) : List FVal :=
  tabulate ys.length fun i =>
    if w ≤ i + 1 then
      let win := (ys.drop (i + 1 - w)).take w
      if win.all isVal then .val ((win.map toQ).sum / (w : ℚ)) else .nan
    else .nan

/-- SMA20 column (app.py line 69, recomputed identically at line 275). -/
def SMA20col (xs : List ℚ) : List FVal := rollingMean 20 (xs.map FVal.val)

/-- SMA50 column (app.py line 70). -/
def SMA50col (xs : List ℚ) : List FVal := rollingMean 50 (xs.map FVal.val)

/-- Average gain over 14 periods (app.py line 76). -/
def avgGainCol (xs : List ℚ) : List FVal := rollingMean 14 (gainCol xs)

/-- Average loss over 14 periods (app.py line 77). -/
def avgLossCol (xs : List ℚ) : List FVal := rollingMean 14 (lossCol xs)

/-- Relative strength rs = avg_gain / avg_loss (app.py line 78). -/
def rsCol (xs : List ℚ) : List FVal := List.zipWith fdiv (avgGainCol xs) (avgLossCol xs)

/-- RSI column: 100 - 100/(1 + rs) (app.py line 79; lines 287-294 rebuild
the same arithmetic). -/
def RSIcol (xs : List ℚ) : List FVal :=
  (rsCol xs).map fun r => fsub (.val 100) (fdiv (.val 100) (fadd (.val 1) r))

/-- Latest RSI consumed by the scorer (app.py lines 146-150): last entry of
the RSI column after dropping nan entries, neutral 50 when none remain. -/
def latest_rsi (xs : List ℚ) : FVal :=
  match ((RSIcol xs).filter fun v => v != FVal.nan).getLast? with
  | none => .val 50
  | some v => v

/-- Difference of the last SMA20 and SMA50 entries (app.py lines 152-156).
Reading the last entry raises only on an empty frame, so the except-branch
value 0 applies exactly when the series is empty; on a nonempty series both
reads succeed and the difference may be nan. -/
def sma_diff (xs : List ℚ) : FVal :=
  match (SMA20col xs).getLast?, (SMA50col xs).getLast? with
  | some a, some b => fsub a b
  | _, _ => .val 0

/-- RSI contribution to the buy-strength score (app.py lines 159-160). -/
def rsiScore (xs : List ℚ) : ℕ :=
  if flt (latest_rsi xs) (.val 30) then 2
  else if flt (latest_rsi xs) (.val 50) then 1
  else 0

/-- SMA contribution to the buy-strength score (app.py lines 161-162). -/
def smaScore (xs : List ℚ) : ℕ :=
  if fgt (sma_diff xs) (.val 0) then 2
  else if fgt (sma_diff xs) (.val (-5)) then 1
  else 0

/-- Total buy-strength score (app.py lines 158-162). -/
def score (xs : List ℚ) : ℕ := rsiScore xs + smaScore xs

/-- Buy-strength label (app.py lines 164-172, emoji prefixes dropped). -/
def meter (xs : List ℚ) : String :=
  if 4 ≤ score xs then "Strong Buy"
  else if 3 ≤ score xs then "Buy"
  else if score xs = 2 then "Hold"
  else if score xs = 1 then "Weak Hold"
  else "Sell"

/-- Strict-minimum test of app.py line 58: python all(...) over j in
range(1, window), that is j from 1 to window-1 inclusive. -/
def supportCond (lows : List ℚ) (w i : ℕ) : Bool :=
  (List.range' 1 (w - 1)).all fun j =>
    decide (lows.getD i 0 < lows.getD (i - j) 0) && decide (lows.getD i 0 < lows.getD (i + j) 0)

/-- Strict-maximum test of app.py line 60, same j range. -/
def resistCond (highs : List ℚ) (w i : ℕ) : Bool :=
  (List.range' 1 (w - 1)).all fun j =>
    decide (highs.getD (i - j) 0 < highs.getD i 0) && decide (highs.getD (i + j) 0 < highs.getD i 0)

/-- Interior index range of app.py line 57: python range(window, n - window). -/
def pivotRange (n w : ℕ) : List ℕ := List.range' w (n - 2 * w)

/-- Indices appended to the support list (app.py lines 58-59). -/
def supportIdxs (lows : List ℚ) (w : ℕ) : List ℕ :=
  (pivotRange lows.length w).filter (supportCond lows w)

/-- Indices appended to the resistance list (app.py lines 60-61). -/
def resistanceIdxs (highs : List ℚ) (w : ℕ) : List ℕ :=
  (pivotRange highs.length w).filter (resistCond highs w)

/-- Support and resistance levels as (position, price) pairs, the return
value of find_support_resistance (app.py lines 54-62) with positions in
place of timestamps. -/
def find_support_resistance (highs lows : List ℚ) (w : ℕ) : List (ℕ × ℚ) × List (ℕ × ℚ) :=
  ((supportIdxs lows w).map fun i => (i, lows.getD i 0),
   (resistanceIdxs highs w).map fun i => (i, highs.getD i 0))

/-- Pivot condition as the spec words it (section 4.3): strict inequality
for every j from 1 to w inclusive; written from the spec to compare with the
code-derived supportCond. -/
def specSupportAt (lows : List ℚ) (w i : ℕ) : Prop :=
  ∀ j ∈ Finset.Icc 1 w, lows.getD i 0 < lows.getD (i - j) 0 ∧ lows.getD i 0 < lows.getD (i + j) 0

/-- Spec-worded resistance condition (section 4.3), j from 1 to w inclusive. -/
def specResistAt (highs : List ℚ) (w i : ℕ) : Prop :=
  ∀ j ∈ Finset.Icc 1 w, highs.getD (i - j) 0 < highs.getD i 0 ∧ highs.getD (i + j) 0 < highs.getD i 0

/-- Rolling 20-period sample standard deviation column (pandas
rolling(20).std(), ddof=1, app.py line 276). The square root of the sample
variance is irrational in general, so it is taken through a parameter s
standing for the real square root; the properties proved below hold for
every such s. -/
def BB_std (s : ℚ → ℚ) (xs : List ℚ) : List FVal :=
  tabulate xs.length fun i =>
    if 20 ≤ i + 1 then
      let win := (xs.drop (i + 1 - 20)).take 20
      let m := win.sum / 20
      .val (s ((win.map fun x => (x - m) ^ 2).sum / 19))
    else .nan

/-- Upper Bollinger band: SMA20 + 2 * BB_std (app.py line 277). -/
def BB_upper (s : ℚ → ℚ) (xs : List ℚ) : List FVal :=
  List.zipWith fadd (SMA20col xs) ((BB_std s xs).map (fmul (.val 2)))

/-- Lower Bollinger band: SMA20 - 2 * BB_std (app.py line 278). -/
def BB_lower (s : ℚ → ℚ) (xs : List ℚ) : List FVal :=
  List.zipWith fsub (SMA20col xs) ((BB_std s xs).map (fmul (.val 2)))

/-- Raw OHLCV row before sanitization; a none field is a missing value. -/
structure PriceRow where
  timestamp : ℕ
  Open : Option ℚ
  High : Option ℚ
  Low : Option ℚ
  Close : Option ℚ
  Volume : Option ℚ
deriving DecidableEq

/-- Row-completeness over the four OHLC fields, the dropna subset of app.py
line 50; volume is not consulted. -/
def ohlcComplete (r : PriceRow) : Bool :=
  r.Open.isSome && r.High.isSome && r.Low.isSome && r.Close.isSome

/-- Sanitizer (app.py line 50): data.dropna(subset=ohlc_cols). -/
def dropnaOHLC (rows : List PriceRow) : List PriceRow := rows.filter ohlcComplete

/-- Concrete ascending fifteen-point close series 1..15: every day gains,
so its 14-period average loss at the last index is exactly zero. -/
def asc15 : List ℚ := [1, 2, 3, 4, 5, 6, 7, 8, 9, 10, 11, 12, 13, 14, 15]

/-- Concrete sixteen-point close series with one initial rise and then a
constant tail: RSI is defined (value 100) at index 14 and nan at the final
index 15. -/
def flat16 : List ℚ := [1, 2, 2, 2, 2, 2, 2, 2, 2, 2, 2, 2, 2, 2, 2, 2]

lemma tabulate_length (n : ℕ) (f : ℕ → FVal) : (tabulate n f).length = n := by
  simp [tabulate]

lemma tabulate_getElem (n : ℕ) (f : ℕ → FVal) (i : ℕ) (h : i < n) :
    (tabulate n f)[i]? = some (f i) := by
  simp [tabulate, List.getElem?_map, List.getElem?_range h]

/-- Claim C10: the sanitizer is exactly the OHLC-completeness filter: the
output is a sublist of the input (rows keep their field values and relative
order) and a row survives iff all four of open, high, low, close are
present; volume is not consulted. -/
theorem C10_sanitizer_filter (rows : List PriceRow) :
    List.Sublist (dropnaOHLC rows) rows ∧
    ∀ r : PriceRow, r ∈ dropnaOHLC rows ↔ r ∈ rows ∧ ohlcComplete r = true :=
  ⟨List.filter_sublist rows, fun _ => List.mem_filter⟩

/-- Claim C2 (amended): on a single-row series all rolling indicators are
nan; the scorer falls back to latest RSI 50, which contributes 0 (50 < 50
fails), and sma_diff is nan (not 0), which contributes 0 (nan comparisons are
false); total score 0 and label Sell. -/
theorem C2_single_row_score (c : ℚ) :
    SMA20col [c] = [.nan] ∧ SMA50col [c] = [.nan] ∧ RSIcol [c] = [.nan] ∧
    latest_rsi [c] = .val 50 ∧ sma_diff [c] = .nan ∧ score [c] = 0 ∧ meter [c] = "Sell" :=
  ⟨rfl, rfl, rfl, rfl, rfl, rfl, rfl⟩

/-- Claim C2 counterexample: on the single-row series with close 100 the
score is 0 and the label Sell, not score 2 and label Hold as claimed. -/
theorem C2_counterexample :
    score [(100 : ℚ)] = 0 ∧ meter [(100 : ℚ)] = "Sell" ∧
    score [(100 : ℚ)] ≠ 2 ∧ meter [(100 : ℚ)] ≠ "Hold" :=
  ⟨rfl, rfl, by decide, by decide⟩

/-- Claim C5 (amended): the except-branch value 0 for sma_diff applies
exactly on the empty series; on a nonempty series whose last SMA20 or SMA50
entry is nan, sma_diff is nan (not 0), and the SMA contribution to the score
is 0 because both threshold comparisons on nan are false. -/
theorem C5_sma_fallback :
    sma_diff [] = .val 0 ∧
    ∀ (xs : List ℚ) (a b : FVal), (SMA20col xs).getLast? = some a →
      (SMA50col xs).getLast? = some b → (a = .nan ∨ b = .nan) →
      sma_diff xs = .nan ∧ smaScore xs = 0 := by
  refine ⟨rfl, ?_⟩
  intro xs a b ha hb hnan
  have hd : sma_diff xs = fsub a b := by
    unfold sma_diff
    rw [ha, hb]
  have hs : fsub a b = FVal.nan := by
    rcases hnan with h | h
    · subst h
      cases b <;> rfl
    · subst h
      cases a <;> rfl
  have hdn : sma_diff xs = FVal.nan := hd.trans hs
  refine ⟨hdn, ?_⟩
  unfold smaScore
  rw [hdn]
  rfl

/-- Witness for C5 on the two-row series with closes 1 and 2. -/
theorem C5_sma_fallback_witness :
    sma_diff [(1 : ℚ), 2] = FVal.nan ∧ smaScore [(1 : ℚ), 2] = 0 :=
  C5_sma_fallback.2 [1, 2] FVal.nan FVal.nan (by decide) (by decide) (Or.inl rfl)

/-- Claim C5 counterexample: on the two-row series both latest SMA entries
are nan, yet sma_diff is nan rather than the claimed 0, and the SMA score
contribution is 0 rather than the 1 that a 0 difference would produce. -/
theorem C5_counterexample :
    (SMA20col [(1 : ℚ), 2]).getLast? = some FVal.nan ∧
    (SMA50col [(1 : ℚ), 2]).getLast? = some FVal.nan ∧
    sma_diff [(1 : ℚ), 2] ≠ FVal.val 0 ∧ smaScore [(1 : ℚ), 2] = 0 := by
  decide

/-- Claim C4 counterexample: on the flat three-row series with high = low =
0 and window 1, index 1 is marked both support and resistance (the window
test ranges over an empty j set and holds vacuously). -/
theorem C4_counterexample :
    1 ∈ supportIdxs [0, 0, 0] 1 ∧ 1 ∈ resistanceIdxs [0, 0, 0] 1 := by
  decide

/-- Claim C4 (amended): for every window of at least 2 and every series in
which the high column equals the low column, no index is marked both
support and resistance. -/
theorem C4_support_resistance_exclusive (highs lows : List ℚ) (w : ℕ) (hw : 2 ≤ w)
    (heq : highs = lows) (i : ℕ) :
    ¬(i ∈ supportIdxs lows w ∧ i ∈ resistanceIdxs highs w) := by
  subst heq
  rintro ⟨hs, hr⟩
  rw [supportIdxs, List.mem_filter] at hs
  rw [resistanceIdxs, List.mem_filter] at hr
  have h1 : (1 : ℕ) ∈ List.range' 1 (w - 1) := by
    rw [List.mem_range'_1]
    omega
  have hsc := hs.2
  have hrc := hr.2
  rw [supportCond, List.all_eq_true] at hsc
  rw [resistCond, List.all_eq_true] at hrc
  have h2 := hsc 1 h1
  have h3 := hrc 1 h1
  simp only [Bool.and_eq_true, decide_eq_true_eq] at h2 h3
  exact absurd h3.2 (lt_asymm h2.2)

/-- Witness for C4 at window 2 on a three-row series with high = low. -/
theorem C4_support_resistance_exclusive_witness :
    ¬(1 ∈ supportIdxs [0, 1, 0] 2 ∧ 1 ∈ resistanceIdxs [0, 1, 0] 2) :=
  C4_support_resistance_exclusive [0, 1, 0] [0, 1, 0] 2 (by decide) rfl 1

lemma mem_pivot_filter (cond : ℕ → Bool) (n w i : ℕ) (hlo : w ≤ i) (hhi : i < n - w) :
    i ∈ (pivotRange n w).filter cond ↔ cond i = true := by
  rw [List.mem_filter, pivotRange]
  constructor
  · exact fun h => h.2
  · intro h
    refine ⟨?_, h⟩
    rw [List.mem_range'_1]
    omega

lemma supportCond_iff (lows : List ℚ) (w i : ℕ) :
    supportCond lows w i = true ↔
      ∀ j ∈ Finset.Icc 1 (w - 1),
        lows.getD i 0 < lows.getD (i - j) 0 ∧ lows.getD i 0 < lows.getD (i + j) 0 := by
  rw [supportCond, List.all_eq_true]
  constructor
  · intro h j hj
    rw [Finset.mem_Icc] at hj
    have hmem : j ∈ List.range' 1 (w - 1) := by
      rw [List.mem_range'_1]
      omega
    simpa using h j hmem
  · intro h j hj
    rw [List.mem_range'_1] at hj
    have hj2 : j ∈ Finset.Icc 1 (w - 1) := by
      rw [Finset.mem_Icc]
      omega
    simpa using h j hj2

lemma resistCond_iff (highs : List ℚ) (w i : ℕ) :
    resistCond highs w i = true ↔
      ∀ j ∈ Finset.Icc 1 (w - 1),
        highs.getD (i - j) 0 < highs.getD i 0 ∧ highs.getD (i + j) 0 < highs.getD i 0 := by
  rw [resistCond, List.all_eq_true]
  constructor
  · intro h j hj
    rw [Finset.mem_Icc] at hj
    have hmem : j ∈ List.range' 1 (w - 1) := by
      rw [List.mem_range'_1]
      omega
    simpa using h j hmem
  · intro h j hj
    rw [List.mem_range'_1] at hj
    have hj2 : j ∈ Finset.Icc 1 (w - 1) := by
      rw [Finset.mem_Icc]
      omega
    simpa using h j hj2

/-- Claim C1 counterexample: with window 1 on the flat series of lows
0, 0, 0, index 1 is marked as support (the j loop over range(1, 1) is empty,
so the test holds vacuously), while the spec condition with j ranging over
1..w demands low at 1 strictly below low at 0, which fails. -/
theorem C1_counterexample :
    1 ∈ supportIdxs [0, 0, 0] 1 ∧ ¬specSupportAt [0, 0, 0] 1 1 := by
  refine ⟨by decide, ?_⟩
  unfold specSupportAt
  decide

/-- Claim C1 (amended): for every window w of at least 1 and every interior
index i, the detector marks i as support exactly when the low at i is
strictly below the lows at distance j on both sides for every j from 1 to
w - 1 (not w), and as resistance exactly when the high at i is strictly
above the highs at distance j on both sides for every j from 1 to w - 1. -/
theorem C1_pivot_characterization (lows highs : List ℚ) (w : ℕ) (hw : 1 ≤ w) (i : ℕ)
    (hlo : w ≤ i) (hhiL : i < lows.length - w) (hhiH : i < highs.length - w) :
    (i ∈ supportIdxs lows w ↔
      ∀ j ∈ Finset.Icc 1 (w - 1),
        lows.getD i 0 < lows.getD (i - j) 0 ∧ lows.getD i 0 < lows.getD (i + j) 0) ∧
    (i ∈ resistanceIdxs highs w ↔
      ∀ j ∈ Finset.Icc 1 (w - 1),
        highs.getD (i - j) 0 < highs.getD i 0 ∧ highs.getD (i + j) 0 < highs.getD i 0) := by
  constructor
  · rw [supportIdxs, mem_pivot_filter (supportCond lows w) lows.length w i hlo hhiL]
    exact supportCond_iff lows w i
  · rw [resistanceIdxs, mem_pivot_filter (resistCond highs w) highs.length w i hlo hhiH]
    exact resistCond_iff highs w i

/-- Witness for C1 at window 2 and index 2 on five-row series with a strict
low dip and a strict high peak. -/
theorem C1_pivot_characterization_witness :
    (2 ∈ supportIdxs [3, 2, 1, 2, 3] 2 ↔
      ∀ j ∈ Finset.Icc 1 (2 - 1),
        ([3, 2, 1, 2, 3] : List ℚ).getD 2 0 < ([3, 2, 1, 2, 3] : List ℚ).getD (2 - j) 0 ∧
        ([3, 2, 1, 2, 3] : List ℚ).getD 2 0 < ([3, 2, 1, 2, 3] : List ℚ).getD (2 + j) 0) ∧
    (2 ∈ resistanceIdxs [1, 2, 3, 2, 1] 2 ↔
      ∀ j ∈ Finset.Icc 1 (2 - 1),
        ([1, 2, 3, 2, 1] : List ℚ).getD (2 - j) 0 < ([1, 2, 3, 2, 1] : List ℚ).getD 2 0 ∧
        ([1, 2, 3, 2, 1] : List ℚ).getD (2 + j) 0 < ([1, 2, 3, 2, 1] : List ℚ).getD 2 0) :=
  C1_pivot_characterization [3, 2, 1, 2, 3] [1, 2, 3, 2, 1] 2 (by decide) 2 (by decide)
    (by decide) (by decide)

lemma zipWith_getElem (f : FVal → FVal → FVal) (l1 l2 : List FVal) (i : ℕ) (a b : FVal)
    (h1 : l1[i]? = some a) (h2 : l2[i]? = some b) :
    (List.zipWith f l1 l2)[i]? = some (f a b) := by
  induction l1 generalizing l2 i with
  | nil => simp at h1
  | cons x xs ih =>
    cases l2 with
    | nil => simp at h2
    | cons y ys =>
      cases i with
      | zero =>
        simp only [List.getElem?_cons_zero, Option.some_inj] at h1 h2
        subst h1
        subst h2
        simp [List.zipWith_cons_cons]
      | succ n =>
        simp only [List.getElem?_cons_succ] at h1 h2
        simpa using ih ys n h1 h2

lemma rollingMean_map_val (w : ℕ) (xs : List ℚ) (i : ℕ) (h : i < xs.length) :
    (rollingMean w (xs.map FVal.val))[i]? =
      some (if w ≤ i + 1 then FVal.val (((xs.drop (i + 1 - w)).take w).sum / (w : ℚ))
            else FVal.nan) := by
  have hlen : i < (xs.map FVal.val).length := by simpa using h
  rw [rollingMean, tabulate_getElem _ _ i hlen]
  by_cases hw : w ≤ i + 1
  · simp only [hw, if_true, ← List.map_drop, ← List.map_take, List.map_map]
    have hall : ((List.take w (List.drop (i + 1 - w) xs)).map FVal.val).all isVal = true := by
      rw [List.all_eq_true]
      intro x hx
      rw [List.mem_map] at hx
      obtain ⟨a, -, rfl⟩ := hx
      rfl
    rw [hall]
    have h2 : (toQ ∘ FVal.val) = id := rfl
    rw [h2, List.map_id]
    simp
  · simp [hw]

/-- Claim C8: on a series of at least 50 closes, SMA50 at index i is
defined exactly for i at least 49 (nan below) and equals the equally
weighted arithmetic mean of the closes at positions i-49 through i. -/
theorem C8_sma50 (xs : List ℚ) (h50 : 50 ≤ xs.length) (i : ℕ) (hi : i < xs.length) :
    (SMA50col xs)[i]? =
      some (if 49 ≤ i then FVal.val (((xs.drop (i - 49)).take 50).sum / 50) else FVal.nan) := by
  rw [SMA50col, rollingMean_map_val 50 xs i hi]
  have he : i + 1 - 50 = i - 49 := by omega
  rw [he]
  by_cases h49 : 49 ≤ i
  · rw [if_pos (by omega : 50 ≤ i + 1), if_pos h49]
    norm_num
  · rw [if_neg (by omega : ¬50 ≤ i + 1), if_neg h49]

/-- Witness for C8 on fifty constant closes at index 49. -/
theorem C8_sma50_witness :
    (SMA50col (List.replicate 50 (1 : ℚ)))[49]? =
      some (if 49 ≤ 49 then
        FVal.val ((((List.replicate 50 (1 : ℚ)).drop (49 - 49)).take 50).sum / 50)
      else FVal.nan) :=
  C8_sma50 (List.replicate 50 1) (by decide) 49 (by decide)

lemma map_getElem (f : FVal → FVal) (l : List FVal) (i : ℕ) (a : FVal)
    (h : l[i]? = some a) : (l.map f)[i]? = some (f a) := by
  rw [List.getElem?_map, h]
  rfl

lemma rollingMean_length (w : ℕ) (ys : List FVal) : (rollingMean w ys).length = ys.length := by
  simp [rollingMean, tabulate]

lemma SMA20col_defined (xs : List ℚ) (i : ℕ) (m : ℚ)
    (h : (SMA20col xs)[i]? = some (FVal.val m)) : i < xs.length ∧ 20 ≤ i + 1 := by
  have hlen : i < xs.length := by
    by_contra hc
    have hge : (SMA20col xs).length ≤ i := by
      rw [SMA20col, rollingMean_length]
      simp only [List.length_map]
      omega
    rw [List.getElem?_eq_none hge] at h
    exact Option.noConfusion h
  refine ⟨hlen, ?_⟩
  rw [SMA20col, rollingMean_map_val 20 xs i hlen] at h
  by_contra hc
  rw [if_neg hc] at h
  exact FVal.noConfusion (Option.some_inj.mp h)

lemma BB_std_getElem (s : ℚ → ℚ) (xs : List ℚ) (i : ℕ) (h : i < xs.length) (hw : 20 ≤ i + 1) :
    (BB_std s xs)[i]? = some (FVal.val (s ((((xs.drop (i + 1 - 20)).take 20).map
      (fun x => (x - ((xs.drop (i + 1 - 20)).take 20).sum / 20) ^ 2)).sum / 19))) := by
  rw [BB_std, tabulate_getElem _ _ i h]
  simp [hw]

/-- Claim C7: at every index where SMA20 is defined, the Bollinger band
width BB_upper minus BB_lower equals exactly four times the rolling
20-period sample standard deviation with ddof 1 (whose square root is taken
through the parameter s, so the identity holds for every square-root
function). -/
theorem C7_bollinger_width (s : ℚ → ℚ) (xs : List ℚ) (i : ℕ) (m : ℚ)
    (hm : (SMA20col xs)[i]? = some (FVal.val m)) :
    ∃ sd : ℚ, (BB_std s xs)[i]? = some (FVal.val sd) ∧
      (List.zipWith fsub (BB_upper s xs) (BB_lower s xs))[i]? = some (FVal.val (4 * sd)) := by
  obtain ⟨hlen, hw⟩ := SMA20col_defined xs i m hm
  have hstd := BB_std_getElem s xs i hlen hw
  refine ⟨_, hstd, ?_⟩
  have h2 : ((BB_std s xs).map (fmul (.val 2)))[i]? =
      some (fmul (.val 2) (.val (s ((((xs.drop (i + 1 - 20)).take 20).map
        (fun x => (x - ((xs.drop (i + 1 - 20)).take 20).sum / 20) ^ 2)).sum / 19)))) :=
    map_getElem _ _ _ _ hstd
  have hup := zipWith_getElem fadd _ _ i _ _ hm h2
  have hlo := zipWith_getElem fsub _ _ i _ _ hm h2
  have hw2 := zipWith_getElem fsub _ _ i _ _ hup hlo
  rw [BB_upper, BB_lower]
  rw [hw2]
  have hcalc : ∀ m0 sd0 : ℚ, fsub (fadd (FVal.val m0) (fmul (.val 2) (.val sd0)))
      (fsub (FVal.val m0) (fmul (.val 2) (.val sd0))) = FVal.val (4 * sd0) := by
    intro m0 sd0
    simp only [fsub, fadd, fneg, fmul, FVal.val.injEq]
    ring
  rw [hcalc]

/-- Witness for C7 with the identity square-root stand-in on twenty
constant closes at index 19. -/
theorem C7_bollinger_width_witness :
    ∃ sd : ℚ, (BB_std (fun q => q) (List.replicate 20 (1 : ℚ)))[19]? = some (FVal.val sd) ∧
      (List.zipWith fsub (BB_upper (fun q => q) (List.replicate 20 (1 : ℚ)))
        (BB_lower (fun q => q) (List.replicate 20 (1 : ℚ))))[19]? = some (FVal.val (4 * sd)) := by
  have hm : (SMA20col (List.replicate 20 (1 : ℚ)))[19]? = some (FVal.val 1) := by
    rw [SMA20col, rollingMean_map_val 20 (List.replicate 20 1) 19 (by simp)]
    norm_num [List.take_replicate, List.sum_replicate]
  exact C7_bollinger_width (fun q => q) (List.replicate 20 1) 19 1 hm

lemma rollingMean_getElem_val (w : ℕ) (ys : List FVal) (i : ℕ) (h : i < ys.length)
    (hw : w ≤ i + 1) (hall : ((ys.drop (i + 1 - w)).take w).all isVal = true) :
    (rollingMean w ys)[i]? =
      some (.val ((((ys.drop (i + 1 - w)).take w).map toQ).sum / (w : ℚ))) := by
  rw [rollingMean, tabulate_getElem _ _ i h]
  simp only [hw, if_true, hall]

lemma asc15_diff : diffCol asc15 = FVal.nan :: List.replicate 14 (FVal.val 1) := by
  norm_num [diffCol, tabulate, List.range_succ, asc15]
  rfl

lemma asc15_gain : gainCol asc15 = FVal.val 0 :: List.replicate 14 (FVal.val 1) := by
  rw [gainCol, asc15_diff]
  norm_num [fgt, flt, List.map_replicate]

lemma asc15_loss : lossCol asc15 = List.replicate 15 (FVal.val 0) := by
  rw [lossCol, asc15_diff]
  norm_num [flt, fneg, List.map_replicate]
  rfl

lemma asc15_avgLoss : (avgLossCol asc15)[14]? = some (FVal.val 0) := by
  rw [avgLossCol, asc15_loss]
  rw [rollingMean_getElem_val 14 _ 14 (by decide) (by decide) (by decide)]
  have hwin : (((List.replicate 15 (FVal.val 0)).drop (14 + 1 - 14)).take 14).map toQ
      = List.replicate 14 (0 : ℚ) := by decide
  rw [hwin]
  norm_num [List.sum_replicate]

lemma asc15_avgGain : (avgGainCol asc15)[14]? = some (FVal.val 1) := by
  rw [avgGainCol, asc15_gain]
  rw [rollingMean_getElem_val 14 _ 14 (by decide) (by decide) (by decide)]
  have hwin : (((FVal.val 0 :: List.replicate 14 (FVal.val 1)).drop (14 + 1 - 14)).take 14).map toQ
      = List.replicate 14 (1 : ℚ) := by decide
  rw [hwin]
  norm_num [List.sum_replicate]

lemma asc15_rsi : (RSIcol asc15)[14]? = some (FVal.val 100) := by
  have hrs : (rsCol asc15)[14]? = some (fdiv (FVal.val 1) (FVal.val 0)) := by
    rw [rsCol]
    exact zipWith_getElem fdiv _ _ 14 _ _ asc15_avgGain asc15_avgLoss
  rw [RSIcol, map_getElem _ _ _ _ hrs]
  norm_num [fdiv, fadd, fsub, fneg]

/-- Claim C3 counterexample: on the strictly ascending series 1..15 the
14-period average loss at index 14 is exactly zero, yet RSI there is the
numeric value 100 (a positive average gain over a zero average loss gives
+inf and 100 - 100/(1 + inf) = 100), not nan. -/
theorem C3_counterexample :
    (avgLossCol asc15)[14]? = some (FVal.val 0) ∧
    (RSIcol asc15)[14]? = some (FVal.val 100) ∧
    (RSIcol asc15)[14]? ≠ some FVal.nan := by
  refine ⟨asc15_avgLoss, asc15_rsi, ?_⟩
  rw [asc15_rsi]
  simp

/-- Claim C3 (amended): at an index where the 14-period average loss is
exactly zero, RSI is nan when the average gain is also zero, and the
numeric value 100 when the average gain is positive; the division never
raises. -/
theorem C3_rsi_zero_loss (xs : List ℚ) (i : ℕ)
    (h0 : (avgLossCol xs)[i]? = some (FVal.val 0)) :
    ((avgGainCol xs)[i]? = some (FVal.val 0) → (RSIcol xs)[i]? = some FVal.nan) ∧
    (∀ g : ℚ, (avgGainCol xs)[i]? = some (FVal.val g) → 0 < g →
      (RSIcol xs)[i]? = some (FVal.val 100)) := by
  constructor
  · intro hg
    have hrs : (rsCol xs)[i]? = some (fdiv (FVal.val 0) (FVal.val 0)) := by
      rw [rsCol]
      exact zipWith_getElem fdiv _ _ i _ _ hg h0
    rw [RSIcol, map_getElem _ _ _ _ hrs]
    norm_num [fdiv, fadd, fsub, fneg]
  · intro g hg hpos
    have hrs : (rsCol xs)[i]? = some (fdiv (FVal.val g) (FVal.val 0)) := by
      rw [rsCol]
      exact zipWith_getElem fdiv _ _ i _ _ hg h0
    rw [RSIcol, map_getElem _ _ _ _ hrs]
    have hdiv : fdiv (FVal.val g) (FVal.val 0) = FVal.pinf := by
      simp [fdiv, hpos]
    rw [hdiv]
    norm_num [fadd, fdiv, fsub, fneg]

/-- Witness for C3 on the ascending series at index 14, average gain 1. -/
theorem C3_rsi_zero_loss_witness : (RSIcol asc15)[14]? = some (FVal.val 100) :=
  (C3_rsi_zero_loss asc15 14 asc15_avgLoss).2 1 asc15_avgGain (by norm_num)

lemma mem_tabulate (n : ℕ) (f : ℕ → FVal) (v : FVal) (h : v ∈ tabulate n f) :
    ∃ i, i < n ∧ v = f i := by
  rw [tabulate, List.mem_map] at h
  obtain ⟨i, hi, rfl⟩ := h
  exact ⟨i, List.mem_range.mp hi, rfl⟩

lemma mem_diffCol (xs : List ℚ) (v : FVal) (h : v ∈ diffCol xs) :
    v = FVal.nan ∨ ∃ q : ℚ, v = FVal.val q := by
  obtain ⟨i, -, rfl⟩ := mem_tabulate _ _ _ h
  by_cases h0 : i = 0
  · simp [h0]
  · rw [if_neg h0]
    exact Or.inr ⟨_, rfl⟩

lemma mem_gainCol (xs : List ℚ) (v : FVal) (h : v ∈ gainCol xs) :
    ∃ q : ℚ, v = FVal.val q ∧ 0 ≤ q := by
  rw [gainCol, List.mem_map] at h
  obtain ⟨d, hd, rfl⟩ := h
  rcases mem_diffCol xs d hd with rfl | ⟨q, rfl⟩
  · exact ⟨0, rfl, le_refl 0⟩
  · by_cases hq : fgt (FVal.val q) (FVal.val 0) = true
    · rw [if_pos hq]
      have hq2 : (0 : ℚ) < q := by simpa [fgt, flt] using hq
      exact ⟨q, rfl, hq2.le⟩
    · rw [if_neg hq]
      exact ⟨0, rfl, le_refl 0⟩

lemma mem_lossCol (xs : List ℚ) (v : FVal) (h : v ∈ lossCol xs) :
    ∃ q : ℚ, v = FVal.val q ∧ 0 ≤ q := by
  rw [lossCol, List.mem_map] at h
  obtain ⟨d, hd, rfl⟩ := h
  rcases mem_diffCol xs d hd with rfl | ⟨q, rfl⟩
  · exact ⟨0, by norm_num [flt, fneg], by norm_num⟩
  · by_cases hq : flt (FVal.val q) (FVal.val 0) = true
    · rw [if_pos hq]
      have hq2 : q < 0 := by simpa [flt] using hq
      exact ⟨-q, rfl, by linarith⟩
    · rw [if_neg hq]
      exact ⟨0, by norm_num [fneg], by norm_num⟩

lemma mem_rollingMean_nonneg (w : ℕ) (ys : List FVal)
    (hin : ∀ v ∈ ys, ∃ q : ℚ, v = FVal.val q ∧ 0 ≤ q) (u : FVal)
    (hu : u ∈ rollingMean w ys) :
    u = FVal.nan ∨ ∃ q : ℚ, u = FVal.val q ∧ 0 ≤ q := by
  obtain ⟨i, -, rfl⟩ := mem_tabulate _ _ _ hu
  by_cases hw : w ≤ i + 1
  · simp only [hw, if_true]
    by_cases hall : ((ys.drop (i + 1 - w)).take w).all isVal = true
    · simp only [hall, if_true]
      right
      refine ⟨_, rfl, ?_⟩
      apply div_nonneg
      · apply List.sum_nonneg
        intro x hx
        rw [List.mem_map] at hx
        obtain ⟨y, hy, rfl⟩ := hx
        have hy2 : y ∈ ys := List.drop_subset _ _ (List.take_subset _ _ hy)
        obtain ⟨q, rfl, hq⟩ := hin y hy2
        simpa [toQ] using hq
      · exact Nat.cast_nonneg w
    · simp [hall]
  · simp [hw]

lemma mem_zipWith (f : FVal → FVal → FVal) (l1 l2 : List FVal) (u : FVal)
    (h : u ∈ List.zipWith f l1 l2) : ∃ a ∈ l1, ∃ b ∈ l2, u = f a b := by
  induction l1 generalizing l2 with
  | nil => simp at h
  | cons x xs ih =>
    cases l2 with
    | nil => simp at h
    | cons y ys =>
      rw [List.zipWith_cons_cons, List.mem_cons] at h
      rcases h with rfl | h
      · exact ⟨x, List.mem_cons_self _ _, y, List.mem_cons_self _ _, rfl⟩
      · obtain ⟨a, ha, b, hb, rfl⟩ := ih ys h
        exact ⟨a, List.mem_cons_of_mem _ ha, b, List.mem_cons_of_mem _ hb, rfl⟩

lemma rs_shape (xs : List ℚ) (r : FVal) (h : r ∈ rsCol xs) :
    r = FVal.nan ∨ r = FVal.pinf ∨ ∃ q : ℚ, r = FVal.val q ∧ 0 ≤ q := by
  rw [rsCol] at h
  obtain ⟨a, ha, b, hb, rfl⟩ := mem_zipWith fdiv _ _ r h
  rw [avgGainCol] at ha
  rw [avgLossCol] at hb
  rcases mem_rollingMean_nonneg 14 _ (mem_gainCol xs) a ha with rfl | ⟨g, rfl, hg⟩
  · left
    cases b <;> rfl
  · rcases mem_rollingMean_nonneg 14 _ (mem_lossCol xs) b hb with rfl | ⟨l, rfl, hl⟩
    · left
      rfl
    · by_cases hl0 : l = 0
      · subst hl0
        rcases eq_or_lt_of_le hg with hg0 | hgpos
        · left
          simp [fdiv, ← hg0]
        · right
          left
          simp [fdiv, hgpos]
      · right
        right
        refine ⟨g / l, ?_, div_nonneg hg (lt_of_le_of_ne hl (Ne.symm hl0)).le⟩
        simp [fdiv, hl0]

/-- Claim C6: every defined (non-nan) entry of the RSI column is a finite
value lying in the closed interval from 0 to 100. -/
theorem C6_rsi_bounds (xs : List ℚ) (v : FVal) (hv : v ∈ RSIcol xs) (hnan : v ≠ FVal.nan) :
    ∃ q : ℚ, v = FVal.val q ∧ 0 ≤ q ∧ q ≤ 100 := by
  rw [RSIcol, List.mem_map] at hv
  obtain ⟨r, hr, rfl⟩ := hv
  rcases rs_shape xs r hr with rfl | rfl | ⟨q, rfl, hq⟩
  · exact absurd rfl hnan
  · refine ⟨100, ?_, by norm_num, le_refl 100⟩
    norm_num [fadd, fdiv, fsub, fneg]
  · have h1q : (0 : ℚ) < 1 + q := by linarith
    have hadd : fadd (FVal.val 1) (FVal.val q) = FVal.val (1 + q) := rfl
    have hdiv : fdiv (FVal.val 100) (FVal.val (1 + q)) = FVal.val (100 / (1 + q)) := by
      simp [fdiv, h1q.ne']
    have hsub : fsub (FVal.val 100) (FVal.val (100 / (1 + q))) =
        FVal.val (100 - 100 / (1 + q)) := by
      simp only [fsub, fadd, fneg, FVal.val.injEq]
      ring
    rw [hadd, hdiv, hsub]
    have hub : 100 / (1 + q) ≤ 100 := div_le_self (by norm_num) (by linarith)
    have hlb : 0 ≤ 100 / (1 + q) := div_nonneg (by norm_num) h1q.le
    exact ⟨_, rfl, by linarith, by linarith⟩

/-- Witness for C6: the RSI entry 100 of the ascending series is within
bounds. -/
theorem C6_rsi_bounds_witness :
    ∃ q : ℚ, FVal.val 100 = FVal.val q ∧ 0 ≤ q ∧ q ≤ 100 :=
  C6_rsi_bounds asc15 (FVal.val 100) (List.getElem?_mem asc15_rsi) (by simp)

lemma gainCol_length (xs : List ℚ) : (gainCol xs).length = xs.length := by
  simp [gainCol, diffCol, tabulate]

lemma lossCol_length (xs : List ℚ) : (lossCol xs).length = xs.length := by
  simp [lossCol, diffCol, tabulate]

lemma RSIcol_length (xs : List ℚ) : (RSIcol xs).length = xs.length := by
  simp [RSIcol, rsCol, avgGainCol, avgLossCol, rollingMean_length, gainCol_length,
    lossCol_length]

lemma filter_getLast_of_trailing (p : FVal → Bool) (l : List FVal) (i : ℕ) (v : FVal)
    (hv : l[i]? = some v) (hpv : p v = true)
    (htail : ∀ j, i < j → j < l.length → ∃ u, l[j]? = some u ∧ p u = false) :
    (l.filter p).getLast? = some v := by
  have hsplit : l.filter p = (l.take (i + 1)).filter p ++ (l.drop (i + 1)).filter p := by
    rw [← List.filter_append, List.take_append_drop]
  have hdropnil : (l.drop (i + 1)).filter p = [] := by
    rw [List.filter_eq_nil_iff]
    intro a ha
    obtain ⟨k, hk, hka⟩ := List.getElem_of_mem ha
    have hk2 : (l.drop (i + 1))[k]? = some a := by
      rw [List.getElem?_eq_getElem hk, hka]
    rw [List.getElem?_drop] at hk2
    have hjlen : i + 1 + k < l.length := by
      by_contra hc
      rw [List.getElem?_eq_none (by omega)] at hk2
      exact Option.noConfusion hk2
    obtain ⟨u, hu, hpu⟩ := htail (i + 1 + k) (by omega) hjlen
    rw [hu, Option.some_inj] at hk2
    rw [← hk2]
    simp [hpu]
  have htake : l.take (i + 1) = l.take i ++ [v] := by
    rw [List.take_succ, hv]
    rfl
  rw [hsplit, hdropnil, List.append_nil, htake, List.filter_append]
  have hfv : [v].filter p = [v] := by simp [hpv]
  rw [hfv, List.getLast?_concat]

/-- Claim C9: the RSI value consumed by the scorer is the last non-nan
entry of the full RSI column, which may come from an earlier row than the
final one, and the neutral fallback 50 applies exactly when the entire
column holds no defined value. -/
theorem C9_latest_rsi (xs : List ℚ) :
    ((∀ v ∈ RSIcol xs, v = FVal.nan) → latest_rsi xs = FVal.val 50) ∧
    (∀ i v, (RSIcol xs)[i]? = some v → v ≠ FVal.nan →
      (∀ j, i < j → j < (RSIcol xs).length → (RSIcol xs)[j]? = some FVal.nan) →
      latest_rsi xs = v) := by
  constructor
  · intro hall
    rw [latest_rsi]
    have hnil : (RSIcol xs).filter (fun v => v != FVal.nan) = [] := by
      rw [List.filter_eq_nil_iff]
      intro a ha
      simp [hall a ha]
    rw [hnil]
    rfl
  · intro i v hv hnan htail
    rw [latest_rsi]
    have hlast : ((RSIcol xs).filter (fun v => v != FVal.nan)).getLast? = some v := by
      apply filter_getLast_of_trailing _ _ i v hv
      · simpa using hnan
      · intro j hj1 hj2
        exact ⟨FVal.nan, htail j hj1 hj2, by simp⟩
    rw [hlast]

lemma flat16_diff :
    diffCol flat16 = FVal.nan :: FVal.val 1 :: List.replicate 14 (FVal.val 0) := by
  norm_num [diffCol, tabulate, List.range_succ, flat16]
  rfl

lemma flat16_gain :
    gainCol flat16 = FVal.val 0 :: FVal.val 1 :: List.replicate 14 (FVal.val 0) := by
  rw [gainCol, flat16_diff]
  norm_num [fgt, flt, List.map_replicate]

lemma flat16_loss : lossCol flat16 = List.replicate 16 (FVal.val 0) := by
  rw [lossCol, flat16_diff]
  norm_num [flt, fneg, List.map_replicate]
  rfl

lemma flat16_avgGain14 : (avgGainCol flat16)[14]? = some (FVal.val (1 / 14)) := by
  rw [avgGainCol, flat16_gain]
  rw [rollingMean_getElem_val 14 _ 14 (by decide) (by decide) (by decide)]
  have hwin : ((((FVal.val 0 :: FVal.val 1 :: List.replicate 14 (FVal.val 0)).drop
      (14 + 1 - 14)).take 14).map toQ) = (1 : ℚ) :: List.replicate 13 0 := by decide
  rw [hwin]
  norm_num [List.sum_replicate]

lemma flat16_avgLoss14 : (avgLossCol flat16)[14]? = some (FVal.val 0) := by
  rw [avgLossCol, flat16_loss]
  rw [rollingMean_getElem_val 14 _ 14 (by decide) (by decide) (by decide)]
  have hwin : (((List.replicate 16 (FVal.val 0)).drop (14 + 1 - 14)).take 14).map toQ
      = List.replicate 14 (0 : ℚ) := by decide
  rw [hwin]
  norm_num [List.sum_replicate]

lemma flat16_avgGain15 : (avgGainCol flat16)[15]? = some (FVal.val 0) := by
  rw [avgGainCol, flat16_gain]
  rw [rollingMean_getElem_val 14 _ 15 (by decide) (by decide) (by decide)]
  have hwin : ((((FVal.val 0 :: FVal.val 1 :: List.replicate 14 (FVal.val 0)).drop
      (15 + 1 - 14)).take 14).map toQ) = List.replicate 14 (0 : ℚ) := by decide
  rw [hwin]
  norm_num [List.sum_replicate]

lemma flat16_avgLoss15 : (avgLossCol flat16)[15]? = some (FVal.val 0) := by
  rw [avgLossCol, flat16_loss]
  rw [rollingMean_getElem_val 14 _ 15 (by decide) (by decide) (by decide)]
  have hwin : (((List.replicate 16 (FVal.val 0)).drop (15 + 1 - 14)).take 14).map toQ
      = List.replicate 14 (0 : ℚ) := by decide
  rw [hwin]
  norm_num [List.sum_replicate]

lemma flat16_rsi14 : (RSIcol flat16)[14]? = some (FVal.val 100) := by
  have hrs : (rsCol flat16)[14]? = some (fdiv (FVal.val (1 / 14)) (FVal.val 0)) := by
    rw [rsCol]
    exact zipWith_getElem fdiv _ _ 14 _ _ flat16_avgGain14 flat16_avgLoss14
  rw [RSIcol, map_getElem _ _ _ _ hrs]
  norm_num [fdiv, fadd, fsub, fneg]

lemma flat16_rsi15 : (RSIcol flat16)[15]? = some FVal.nan := by
  have hrs : (rsCol flat16)[15]? = some (fdiv (FVal.val 0) (FVal.val 0)) := by
    rw [rsCol]
    exact zipWith_getElem fdiv _ _ 15 _ _ flat16_avgGain15 flat16_avgLoss15
  rw [RSIcol, map_getElem _ _ _ _ hrs]
  norm_num [fdiv, fadd, fsub, fneg]

/-- Witness for C9: the all-nan single-row column gives the fallback 50,
and on flat16 the scorer consumes the defined RSI 100 at index 14 although
the final entry at index 15 is nan. -/
theorem C9_latest_rsi_witness :
    latest_rsi [(1 : ℚ)] = FVal.val 50 ∧ latest_rsi flat16 = FVal.val 100 := by
  constructor
  · exact (C9_latest_rsi [1]).1 (by decide)
  · refine (C9_latest_rsi flat16).2 14 (FVal.val 100) flat16_rsi14 (by simp) ?_
    intro j hj1 hj2
    rw [RSIcol_length] at hj2
    have hj : j = 15 := by
      have : flat16.length = 16 := by decide
      omega
    rw [hj]
    exact flat16_rsi15
